import Mathlib

/-!
Verification of the core of `ere`, a bulk-rename tool: the newline-safe
name transcoding codec (`src/escape_newlines.rs`), the temporary-name
generator (`src/tempfile_ext.rs`) and the two-phase rename executor
(`src/main.rs`, function `ere`).

Filesystem names are modelled as byte sequences (`List Nat`), matching the
Rust code, which works on `as_bytes()` views of `String` values.  Relevant
byte values: 10 = newline, 92 = backslash, 110 = letter `n`, 46 = dot.
-/

namespace Ere

/-- One non-overlapping left-to-right pass replacing the two-byte substring
backslash-`n` (92, 110) by backslash-backslash-`n` (92, 92, 110); models
the first half of `String::escape_newlines`, namely
`self.replace(r"\n", r"\\n")`. -/
def replaceBSn : List Nat → List Nat
  | [] => []
  | 92 :: 110 :: rest => 92 :: 92 :: 110 :: replaceBSn rest
  | b :: rest => b :: replaceBSn rest

/-- One non-overlapping left-to-right pass replacing each newline byte (10)
by the two-byte sequence backslash-`n` (92, 110); models the second half
of `String::escape_newlines`, namely `.replace("\n", r"\n")`. -/
def replaceNL : List Nat → List Nat
  | [] => []
  | 10 :: rest => 92 :: 110 :: replaceNL rest
  | b :: rest => b :: replaceNL rest

/-- Does the byte sequence contain the two-byte substring backslash-`n`
(92, 110)?  Models `self.contains(r"\n")`. -/
def containsBSn : List Nat → Bool
  | [] => false
  | 92 :: 110 :: _ => true
  | _ :: rest => containsBSn rest

/-- Model of `EscapeNewlines::escape_newlines` for `String`
(`src/escape_newlines.rs` lines 24-34): if the name contains a newline or
a literal backslash-`n`, widen every literal backslash-`n` to
backslash-backslash-`n` and then replace every real newline by
backslash-`n`; otherwise return the name unchanged. -/
def escape_newlines (s : List Nat) : List Nat :=
  if s.contains 10 || containsBSn s then replaceNL (replaceBSn s) else s

/-- The loop of `NewlineEscaped::unescape`
(`src/escape_newlines.rs` lines 47-82).  `bytes` is the whole input,
`rest` the bytes not yet consumed (invariant: `rest = bytes.drop i`),
`i` the current index, `backslash_count` the run length of consecutive
backslashes immediately before position `i`, and `out` the lazily
initialised output buffer (`none` while the output still equals the input
prefix).  `out.getD (bytes.take (i - backslash_count))` models
`out.get_or_insert_with(|| bytes[0..i - backslash_count].to_vec())`. -/
def unescapeGo (bytes : List Nat) : List Nat → Nat → Nat → Option (List Nat) → Option (List Nat)
  | [], _, _, out => out
  | byte :: rest, i, backslash_count, out =>
    if byte = 92 then
      unescapeGo bytes rest (i + 1) (backslash_count + 1) out
    else if byte = 110 then
      match backslash_count, out with
      | 0, none => unescapeGo bytes rest (i + 1) 0 none
      | 0, some o => unescapeGo bytes rest (i + 1) 0 (some (o ++ [110]))
      | 1, o => unescapeGo bytes rest (i + 1) 0 (some (o.getD (List.take (i - 1) bytes) ++ [10]))
      | c + 2, o => unescapeGo bytes rest (i + 1) 0
          (some (o.getD (List.take (i - (c + 2)) bytes) ++ List.replicate (c + 1) 92 ++ [110]))
    else
      match out with
      | none => unescapeGo bytes rest (i + 1) 0 none
      | some o => unescapeGo bytes rest (i + 1) 0 (some (o ++ [byte]))

/-- Model of `NewlineEscaped::unescape` (`src/escape_newlines.rs` lines
43-86): run the loop over the whole input; if the output buffer was never
initialised the input is returned unchanged (`out.unwrap_or(self.str)`). -/
def unescape (line : List Nat) : List Nat :=
  (unescapeGo line line 0 0 none).getD line

/-- What the spec says a single `n` byte preceded by `c` pending
backslashes decodes to: a literal `n` when `c = 0`, one real newline when
`c = 1`, and `c - 1` literal backslashes followed by `n` when `c > 1`. -/
def nEmission (c : Nat) : List Nat :=
  if c = 0 then [110] else if c = 1 then [10] else List.replicate (c - 1) 92 ++ [110]

/-- Model of `std::io::Error`: an error kind plus a message. -/
structure IoErr where
  kind : String
  message : String

/-- The error built at `src/tempfile_ext.rs` lines 20-23: an
`AlreadyExists` error with message "too many temporary files exist". -/
def exhaustedError : IoErr :=
  { kind := "AlreadyExists", message := "too many temporary files exist" }

/-- The constant `NUM_RETRIES` of `src/tempfile_ext.rs` line 8: `1 << 31`. -/
def NUM_RETRIES : Nat := 2 ^ 31

/-- The constant `NUM_RAND_CHARS` of `src/tempfile_ext.rs` line 9. -/
def NUM_RAND_CHARS : Nat := 6

/-- Modelled from the spec: the alphanumeric alphabet that the external
`fastrand::alphanumeric` draws from — the bytes of the digits `0`-`9`,
the uppercase letters and the lowercase letters (62 characters). -/
def ALPHANUMERIC : List Nat :=
  (List.range 10).map (fun d => 48 + d) ++
    (List.range 26).map (fun d => 65 + d) ++
    (List.range 26).map (fun d => 97 + d)

/-- Modelled from the spec: one call of `fastrand::alphanumeric` (external
crate, the injected source of randomness): an arbitrary random natural is
reduced to a uniform pick from the 62-character alphanumeric alphabet. -/
def alphanumeric (r : Nat) : Nat :=
  ALPHANUMERIC.getD (r % 62) 97

/-- Model of `tmpname` (`src/tempfile_ext.rs` lines 26-34): the fixed
literal marker followed by `rand_len` draws of `fastrand::alphanumeric`.
The stream `rand` models the global random generator; `base` is the index
of the next unconsumed draw. -/
def tmpname (rand : Nat → Nat) (base : Nat) (pfx : List Nat) (rand_len : Nat) : List Nat :=
  pfx ++ (List.range rand_len).map (fun k => alphanumeric (rand (base + k)))

/-- The bytes of the fixed literal `".tmp"` passed to `tmpname` at
`src/tempfile_ext.rs` line 13. -/
def tmpMarker : List Nat := [46, 116, 109, 112]

/-- The retry loop of `new_tmp_file_name` (`src/tempfile_ext.rs` lines
12-18): `attempt` counts the draws already made (so attempt `a` consumes
random values `a * NUM_RAND_CHARS` onward), `fuel` the remaining
retries. -/
def newTmpGo (rand : Nat → Nat) (file_names : List (List Nat)) :
    Nat → Nat → Except IoErr (List Nat)
  | _, 0 => Except.error exhaustedError
  | attempt, fuel + 1 =>
    let temp_file_name := tmpname rand (attempt * NUM_RAND_CHARS) tmpMarker NUM_RAND_CHARS
    if file_names.contains temp_file_name then
      newTmpGo rand file_names (attempt + 1) fuel
    else
      Except.ok temp_file_name

/-- Model of `new_tmp_file_name` (`src/tempfile_ext.rs` lines 11-24). -/
def new_tmp_file_name (rand : Nat → Nat) (file_names : List (List Nat)) :
    Except IoErr (List Nat) :=
  newTmpGo rand file_names 0 NUM_RETRIES

/-- A byte is an ASCII alphanumeric character. -/
def isAlnumByte (b : Nat) : Prop :=
  (48 ≤ b ∧ b ≤ 57) ∨ (65 ≤ b ∧ b ≤ 90) ∨ (97 ≤ b ∧ b ≤ 122)

instance (b : Nat) : Decidable (isAlnumByte b) := by
  unfold isAlnumByte; infer_instance

/-- The error type of `src/error.rs`, parameterised by an abstract model
`ε` of `std::io::Error`.  The variant called `Io` in the source is named
`IoFailure` here, after the taxonomy of the design document; `Rename`
keeps its fields (the `from` and `to` fields are called `src` and `dst`
because `from` is a Lean keyword). -/
inductive Err (ε : Type) : Type where
  | IoFailure (source : ε)
  | Rename (src dst : List Nat) (source : ε)
  | EditorStatus (status : Nat)
  | CountMismatch
  | Group (failures : List (Err ε))

/-- Phase 1 of `ere` (`src/main.rs` lines 98-128).  The source pops the
last element of both name vectors on every iteration of the `while` loop,
so we recurse over the reversed positional pairing of
`(file_name, raw_target)`; the still-pending vector `file_names` seen by
the collision check and by `new_tmp_file_name` at each step is
`(rest.map Prod.fst).reverse`.  `ren` is the injected `fs::rename`
primitive on an abstract filesystem state `σ` (returning the new state
and `none` on success, `some cause` on failure), `join` models
`Path::join`, and `tmpgen` the call to `tempfile_ext::new_tmp_file_name`.
Failures and deferred `(temp_file_name, new_file_name)` pairs are pushed
at the back, as `Vec::push` does. -/
def ereLoop {σ ε : Type} (ren : σ → List Nat → List Nat → σ × Option ε)
    (join : List Nat → List Nat → List Nat)
    (tmpgen : List (List Nat) → Except ε (List Nat)) (path : List Nat) :
    List (List Nat × List Nat) → σ → List (Err ε) → List (List Nat × List Nat) →
      σ × List (Err ε) × List (List Nat × List Nat)
  | [], st, failures, temp_file_names => (st, failures, temp_file_names)
  | (file_name, raw_target) :: rest, st, failures, temp_file_names =>
    let file_names := (rest.map Prod.fst).reverse
    let new_file_name := unescape raw_target
    if file_name = new_file_name then
      ereLoop ren join tmpgen path rest st failures temp_file_names
    else
      let src := join path file_name
      if file_names.contains new_file_name then
        match tmpgen file_names with
        | Except.ok temp_file_name =>
          let dst := join path temp_file_name
          match ren st src dst with
          | (st, some source) =>
            ereLoop ren join tmpgen path rest st
              (failures ++ [Err.Rename src dst source]) temp_file_names
          | (st, none) =>
            ereLoop ren join tmpgen path rest st failures
              (temp_file_names ++ [(temp_file_name, new_file_name)])
        | Except.error source =>
          ereLoop ren join tmpgen path rest st (failures ++ [Err.IoFailure source]) temp_file_names
      else
        let dst := join path new_file_name
        match ren st src dst with
        | (st, some source) =>
          ereLoop ren join tmpgen path rest st
            (failures ++ [Err.Rename src dst source]) temp_file_names
        | (st, none) =>
          ereLoop ren join tmpgen path rest st failures temp_file_names

/-- Phase 2 of `ere` (`src/main.rs` lines 131-137): rename every deferred
`(temp_file_name, new_file_name)` pair, in order, recording failures the
same way. -/
def ereTempLoop {σ ε : Type} (ren : σ → List Nat → List Nat → σ × Option ε)
    (join : List Nat → List Nat → List Nat) (path : List Nat) :
    List (List Nat × List Nat) → σ → List (Err ε) → σ × List (Err ε)
  | [], st, failures => (st, failures)
  | (temp_file_name, new_file_name) :: rest, st, failures =>
    let src := join path temp_file_name
    let dst := join path new_file_name
    match ren st src dst with
    | (st, some source) =>
      ereTempLoop ren join path rest st (failures ++ [Err.Rename src dst source])
    | (st, none) => ereTempLoop ren join path rest st failures

/-- The rename phase of `ere` (`src/main.rs` lines 89-143): fail with
`CountMismatch` when the two name sequences differ in length, otherwise
run phase 1 over the positional pairing (popped from the back), then
phase 2 over the deferred pairs, and finally fail with `Group failures`
when the recorded failure list is not empty, succeeding with no result
value otherwise.  `new_file_names` holds the raw listing lines; each is
decoded with `unescape` at the moment its pair is popped, as in the
source. -/
def ereRename {σ ε : Type} (ren : σ → List Nat → List Nat → σ × Option ε)
    (join : List Nat → List Nat → List Nat)
    (tmpgen : List (List Nat) → Except ε (List Nat)) (path : List Nat)
    (file_names new_file_names : List (List Nat)) (st : σ) :
    σ × Except (Err ε) Unit :=
  if file_names.length ≠ new_file_names.length then
    (st, Except.error Err.CountMismatch)
  else
    match ereLoop ren join tmpgen path ((file_names.zip new_file_names).reverse) st [] [] with
    | (st, failures, temp_file_names) =>
      match ereTempLoop ren join path temp_file_names st failures with
      | (st, failures) =>
        if failures.isEmpty then (st, Except.ok ())
        else (st, Except.error (Err.Group failures))

/-- Modelled from the spec: the OS `rename` primitive of section 6 on a
directory snapshot, instrumented with a call log for the proofs.  The
state is a pair of the filesystem — a list of entries of the form
(identity, current name) — and the list of rename calls made so far.  A
call `rename src dst` is logged and succeeds when some entry currently
bears the source name (the name of that entry becomes `dst`); it fails
with a not-found cause when no entry bears the source name. -/
def fsRename (st : List (Nat × List Nat) × List (List Nat × List Nat))
    (src dst : List Nat) :
    (List (Nat × List Nat) × List (List Nat × List Nat)) × Option IoErr :=
  match st with
  | (fs, log) =>
    if fs.any (fun e => e.2 = src) then
      ((fs.map (fun e => if e.2 = src then (e.1, dst) else e), log ++ [(src, dst)]), none)
    else ((fs, log ++ [(src, dst)]), some ⟨"NotFound", "No such file or directory"⟩)

/-- Modelled from the spec: `Path::join` for a scan root and one entry
name; the proofs run with the empty root, under which a joined path is
the entry name itself. -/
def joinName (path name : List Nat) : List Nat := path ++ name

end Ere

namespace Ere

/-- Every byte of the output of `replaceNL` is a backslash, an `n`, or a
non-newline byte copied from the input; in particular no newline byte
survives the pass. -/
theorem not_mem_replaceNL (l : List Nat) : 10 ∉ replaceNL l := by
  induction l using replaceNL.induct with
  | case1 => simp [replaceNL]
  | case2 rest ih => simpa [replaceNL] using ih
  | case3 b rest h ih =>
    simp only [replaceNL, List.mem_cons]
    exact fun hc => hc.elim (fun hb => h hb.symm) ih

/-- C7: for every byte sequence `s`, the line produced by
`String::escape_newlines` contains no raw newline byte. -/
theorem escape_newlines_no_raw_newline (s : List Nat) : 10 ∉ escape_newlines s := by
  unfold escape_newlines
  by_cases hc : (s.contains 10 || containsBSn s) = true
  · rw [if_pos hc]
    exact not_mem_replaceNL (replaceBSn s)
  · rw [if_neg hc]
    intro hm
    exact hc (by simp [List.contains, hm])

/-- C10: `String::escape_newlines` is the identity on every byte sequence
that contains neither a raw newline byte nor the literal two-byte
substring backslash-`n`: the guard in the source returns the string
unmodified. -/
theorem escape_newlines_id_of_no_newline_no_bsn (s : List Nat)
    (h1 : 10 ∉ s) (h2 : containsBSn s = false) : escape_newlines s = s := by
  unfold escape_newlines
  rw [if_neg]
  simp [List.contains, h1, h2]

/-- Witness for C10 at the concrete input `"a"` (byte 97). -/
theorem escape_newlines_id_witness :
    10 ∉ [97] ∧ containsBSn [97] = false ∧ escape_newlines [97] = [97] :=
  ⟨by decide, by decide, escape_newlines_id_of_no_newline_no_bsn [97] (by decide) (by decide)⟩

/-- C1 is false on the code: `escape_newlines` maps the two distinct names
backslash+newline (`[92, 10]`) and literal backslash-`n` (`[92, 110]`) to
the same escaped line (`[92, 92, 110]`), so no decoder can invert it on
both; concretely `unescape (escape_newlines [92, 10]) = [92, 110]`, which
differs from `[92, 10]`, violating the round-trip invariant that the
round-trip tests of the codec itself are meant to guarantee. -/
theorem roundtrip_fails_on_backslash_newline :
    escape_newlines [92, 10] = [92, 92, 110] ∧
    escape_newlines [92, 110] = [92, 92, 110] ∧
    unescape (escape_newlines [92, 10]) = [92, 110] ∧
    [92, 110] ≠ ([92, 10] : List Nat) := by decide

/-- C5 is false on the code: the escaped line `[92, 110, 92]`
(backslash, `n`, backslash — which is `escape_newlines` of
newline+backslash `[10, 92]`) ends in one trailing backslash, but
`unescape` returns `[10]` — once the output buffer has been initialised,
pending backslashes are dropped at end of input instead of being flushed
verbatim (10 differs from 92, so the output does not end in the trailing
backslash). -/
theorem unescape_drops_trailing_backslash :
    escape_newlines [10, 92] = [92, 110, 92] ∧
    unescape [92, 110, 92] = [10] ∧
    (10 : Nat) ≠ 92 := by decide

/-- Once the output buffer is initialised, the loop only ever appends to
it: the final buffer extends the current one. -/
theorem unescapeGo_some_append (bytes : List Nat) :
    ∀ (rest : List Nat) (i c : Nat) (o : List Nat),
      ∃ q, unescapeGo bytes rest i c (some o) = some (o ++ q) := by
  intro rest
  induction rest with
  | nil => exact fun i c o => ⟨[], by simp [unescapeGo]⟩
  | cons byte rest ih =>
    intro i c o
    by_cases h92 : byte = 92
    · subst h92
      simpa [unescapeGo] using ih (i + 1) (c + 1) o
    · by_cases h110 : byte = 110
      · subst h110
        match c with
        | 0 =>
          obtain ⟨q, hq⟩ := ih (i + 1) 0 (o ++ [110])
          exact ⟨[110] ++ q, by simp [unescapeGo, hq, List.append_assoc]⟩
        | 1 =>
          obtain ⟨q, hq⟩ := ih (i + 1) 0 (o ++ [10])
          exact ⟨[10] ++ q, by simp [unescapeGo, hq, List.append_assoc]⟩
        | c + 2 =>
          obtain ⟨q, hq⟩ := ih (i + 1) 0 (o ++ (List.replicate (c + 1) 92 ++ [110]))
          exact ⟨List.replicate (c + 1) 92 ++ [110] ++ q,
            by simp [unescapeGo, hq, List.append_assoc]⟩
      · obtain ⟨q, hq⟩ := ih (i + 1) 0 (o ++ [byte])
        exact ⟨[byte] ++ q,
          by simp [unescapeGo, h92, h110, hq, List.append_assoc]⟩

/-- While the output buffer is uninitialised the loop keeps the invariant
`backslash_count + 1 ≤ i`; from such a state the run ends either with the
buffer still uninitialised, or with a buffer that starts with a nonempty
prefix of the original input (the buffer is seeded with
`bytes.take (i - backslash_count)` and only appended to afterwards). -/
theorem unescapeGo_none_result (bytes : List Nat) :
    ∀ (rest : List Nat) (i c : Nat), c + 1 ≤ i →
      unescapeGo bytes rest i c none = none ∨
      ∃ j q, unescapeGo bytes rest i c none = some (List.take j bytes ++ q) ∧ 1 ≤ j := by
  intro rest
  induction rest with
  | nil => exact fun i c _ => Or.inl (by simp [unescapeGo])
  | cons byte rest ih =>
    intro i c hci
    by_cases h92 : byte = 92
    · subst h92
      simpa [unescapeGo] using ih (i + 1) (c + 1) (by omega)
    · by_cases h110 : byte = 110
      · subst h110
        match c, hci with
        | 0, hci =>
          simpa [unescapeGo] using ih (i + 1) 0 (by omega)
        | 1, hci =>
          obtain ⟨q, hq⟩ := unescapeGo_some_append bytes rest (i + 1) 0
            (List.take (i - 1) bytes ++ [10])
          refine Or.inr ⟨i - 1, [10] ++ q, ?_, by omega⟩
          simp [unescapeGo, hq, List.append_assoc]
        | c + 2, hci =>
          obtain ⟨q, hq⟩ := unescapeGo_some_append bytes rest (i + 1) 0
            (List.take (i - (c + 2)) bytes ++ (List.replicate (c + 1) 92 ++ [110]))
          refine Or.inr ⟨i - (c + 2), List.replicate (c + 1) 92 ++ ([110] ++ q), ?_, by omega⟩
          simp [unescapeGo, hq, List.append_assoc]
      · simpa [unescapeGo, h92, h110] using ih (i + 1) 0 (by omega)

/-- Consuming a run of `k` backslashes advances the index by `k` and the
pending-backslash counter by `k`, leaving the buffer untouched. -/
theorem unescapeGo_replicate_backslash (bytes : List Nat) :
    ∀ (k : Nat) (t : List Nat) (i c : Nat),
      unescapeGo bytes (List.replicate k 92 ++ t) i c none =
        unescapeGo bytes t (i + k) (c + k) none := by
  intro k
  induction k with
  | zero => simp
  | succ k ih =>
    intro t i c
    rw [List.replicate_succ, List.cons_append]
    show unescapeGo bytes (92 :: (List.replicate k 92 ++ t)) i c none = _
    rw [show unescapeGo bytes (92 :: (List.replicate k 92 ++ t)) i c none =
          unescapeGo bytes (List.replicate k 92 ++ t) (i + 1) (c + 1) none by
        simp [unescapeGo]]
    rw [ih t (i + 1) (c + 1)]
    congr 1 <;> omega

/-- C6: the `n`-handling of `NewlineEscaped::unescape`.  (i) When the loop
reads an `n` byte with `c` pending backslashes, it resets the counter and,
unless the buffer is uninitialised with `c = 0`, appends exactly
`nEmission c` — a literal `n` for `c = 0`, a real newline for `c = 1`, and
`c - 1` backslashes followed by `n` for `c > 1` — to the (possibly freshly
seeded) buffer.  (ii) Consequently a line that starts with `c` backslashes
followed by `n` decodes to `nEmission c` followed by the decoding of the
remainder. -/
theorem unescape_n_handling :
    (∀ (bytes rest : List Nat) (i c : Nat) (out : Option (List Nat)),
      unescapeGo bytes (110 :: rest) i c out =
        unescapeGo bytes rest (i + 1) 0
          (match c, out with
           | 0, none => none
           | c, out => some (out.getD (List.take (i - c) bytes) ++ nEmission c))) ∧
    (∀ (c : Nat) (r : List Nat), ∃ q,
      unescape (List.replicate c 92 ++ 110 :: r) = nEmission c ++ q) := by
  constructor
  · intro bytes rest i c out
    match c, out with
    | 0, none => simp [unescapeGo, nEmission]
    | 0, some o => simp [unescapeGo, nEmission]
    | 1, out => cases out <;> simp [unescapeGo, nEmission]
    | c + 2, out => cases out <;> simp [unescapeGo, nEmission, List.append_assoc]
  · intro c r
    unfold unescape
    rw [unescapeGo_replicate_backslash _ c (110 :: r) 0 0]
    match c with
    | 0 =>
      rw [show unescapeGo (List.replicate 0 92 ++ 110 :: r) (110 :: r) (0 + 0) (0 + 0) none =
            unescapeGo (List.replicate 0 92 ++ 110 :: r) r 1 0 none by simp [unescapeGo]]
      rcases unescapeGo_none_result (List.replicate 0 92 ++ 110 :: r) r 1 0 (by omega) with
        h | ⟨j, q, h, hj⟩
      · refine ⟨r, ?_⟩
        rw [h]
        simp [nEmission]
      · refine ⟨List.take (j - 1) r ++ q, ?_⟩
        rw [h]
        simp only [Option.getD_some]
        rw [show List.take j (List.replicate 0 92 ++ 110 :: r) = 110 :: List.take (j - 1) r by
          match j, hj with
          | j + 1, _ => simp
        ]
        simp [nEmission]
    | c + 1 =>
      have step : unescapeGo (List.replicate (c + 1) 92 ++ 110 :: r) (110 :: r)
            (0 + (c + 1)) (0 + (c + 1)) none =
          unescapeGo (List.replicate (c + 1) 92 ++ 110 :: r) r (0 + (c + 1) + 1) 0
            (some (nEmission (c + 1))) := by
        match c with
        | 0 => simp [unescapeGo, nEmission]
        | c + 1 => simp [unescapeGo, nEmission, List.append_assoc]
      rw [step]
      obtain ⟨q, hq⟩ := unescapeGo_some_append (List.replicate (c + 1) 92 ++ 110 :: r) r
        (0 + (c + 1) + 1) 0 (nEmission (c + 1))
      rw [hq]
      exact ⟨q, by simp⟩

/-- Every draw of the modelled `fastrand::alphanumeric` is an ASCII
alphanumeric byte. -/
theorem alphanumeric_isAlnum (r : Nat) : isAlnumByte (alphanumeric r) := by
  have h62 : ∀ k < 62, isAlnumByte (ALPHANUMERIC.getD k 97) := by decide
  exact h62 _ (Nat.mod_lt _ (by norm_num))

/-- The retry loop, started at any attempt index with any fuel, either
returns a fresh well-formed candidate or exhausts the fuel with every
candidate colliding. -/
theorem newTmpGo_spec (rand : Nat → Nat) (file_names : List (List Nat)) :
    ∀ (fuel attempt : Nat),
      (∃ name, newTmpGo rand file_names attempt fuel = Except.ok name ∧
        (∃ suf, name = tmpMarker ++ suf ∧ suf.length = NUM_RAND_CHARS ∧
          ∀ b ∈ suf, isAlnumByte b) ∧
        file_names.contains name = false) ∨
      (newTmpGo rand file_names attempt fuel = Except.error exhaustedError ∧
        ∀ k < fuel, file_names.contains
          (tmpname rand ((attempt + k) * NUM_RAND_CHARS) tmpMarker NUM_RAND_CHARS) = true) := by
  intro fuel
  induction fuel with
  | zero => exact fun attempt => Or.inr ⟨rfl, fun k hk => absurd hk (by omega)⟩
  | succ fuel ih =>
    intro attempt
    by_cases hc : tmpname rand (attempt * NUM_RAND_CHARS) tmpMarker NUM_RAND_CHARS ∈ file_names
    · rcases ih (attempt + 1) with ⟨name, hok, hshape, hfresh⟩ | ⟨herr, hall⟩
      · exact Or.inl ⟨name, by simp [newTmpGo, List.contains, hc, hok], hshape, hfresh⟩
      · refine Or.inr ⟨by simp [newTmpGo, List.contains, hc, herr], fun k hk => ?_⟩
        match k, hk with
        | 0, _ => simpa [List.contains] using hc
        | k + 1, hk =>
          have h2 := hall k (by omega)
          rw [show attempt + (k + 1) = attempt + 1 + k by omega]
          exact h2
    · refine Or.inl ⟨tmpname rand (attempt * NUM_RAND_CHARS) tmpMarker NUM_RAND_CHARS,
        by simp [newTmpGo, List.contains, hc], ?_, by simp [List.contains, hc]⟩
      refine ⟨(List.range NUM_RAND_CHARS).map
        (fun k => alphanumeric (rand (attempt * NUM_RAND_CHARS + k))), rfl, by simp, ?_⟩
      intro b hb
      simp only [List.mem_map] at hb
      obtain ⟨k, _, hk⟩ := hb
      exact hk ▸ alphanumeric_isAlnum _

/-- C8: for every randomness stream and every pending set,
`new_tmp_file_name` either returns `Ok` with a name made of the fixed
`".tmp"` marker followed by `NUM_RAND_CHARS = 6` alphanumeric bytes that
is not contained in the pending set, or, after `NUM_RETRIES = 2^31`
candidate draws that all collided with the pending set, returns the
`AlreadyExists` I/O error; the `Except` result admits no other outcome. -/
theorem new_tmp_file_name_spec (rand : Nat → Nat) (file_names : List (List Nat)) :
    (∃ name, new_tmp_file_name rand file_names = Except.ok name ∧
      (∃ suf, name = tmpMarker ++ suf ∧ suf.length = NUM_RAND_CHARS ∧
        ∀ b ∈ suf, isAlnumByte b) ∧
      file_names.contains name = false) ∨
    (new_tmp_file_name rand file_names = Except.error exhaustedError ∧
      ∀ attempt < NUM_RETRIES, file_names.contains
        (tmpname rand (attempt * NUM_RAND_CHARS) tmpMarker NUM_RAND_CHARS) = true) := by
  rcases newTmpGo_spec rand file_names NUM_RETRIES 0 with h | ⟨herr, hall⟩
  · exact Or.inl h
  · exact Or.inr ⟨herr, fun attempt ha => by simpa using hall attempt ha⟩

/-- Phase 1 never inspects the failure or deferred-pair accumulators: the
run over the remaining pairs is the run with empty accumulators, with the
incoming accumulator contents prepended.  In particular a recorded
failure never changes how later pending pairs are processed. -/
theorem ereLoop_acc {σ ε : Type} (ren : σ → List Nat → List Nat → σ × Option ε)
    (join : List Nat → List Nat → List Nat)
    (tmpgen : List (List Nat) → Except ε (List Nat)) (path : List Nat) :
    ∀ (pairs : List (List Nat × List Nat)) (st : σ) (failures : List (Err ε))
      (temps : List (List Nat × List Nat)),
      ereLoop ren join tmpgen path pairs st failures temps =
        ((ereLoop ren join tmpgen path pairs st [] []).1,
         failures ++ (ereLoop ren join tmpgen path pairs st [] []).2.1,
         temps ++ (ereLoop ren join tmpgen path pairs st [] []).2.2) := by
  intro pairs
  induction pairs with
  | nil => intro st fl tm; simp [ereLoop]
  | cons p rest ih =>
    intro st fl tm
    obtain ⟨fn, rt⟩ := p
    by_cases h1 : fn = unescape rt
    · simp only [ereLoop, if_pos h1]
      exact ih st fl tm
    · simp only [ereLoop, if_neg h1]
      by_cases h2 : ((rest.map Prod.fst).reverse).contains (unescape rt) = true
      · rw [if_pos h2, if_pos h2]
        rcases htg : tmpgen ((rest.map Prod.fst).reverse) with src | tname
        · dsimp only
          rw [ih st (fl ++ [Err.IoFailure src]) tm, ih st ([] ++ [Err.IoFailure src]) []]
          simp [List.append_assoc]
        · dsimp only
          rcases hren : ren st (join path fn) (join path tname) with ⟨st2, _ | e⟩
          · dsimp only
            rw [ih st2 fl (tm ++ [(tname, unescape rt)]),
              ih st2 [] ([] ++ [(tname, unescape rt)])]
            simp [List.append_assoc]
          · dsimp only
            rw [ih st2 (fl ++ [Err.Rename (join path fn) (join path tname) e]) tm,
              ih st2 ([] ++ [Err.Rename (join path fn) (join path tname) e]) []]
            simp [List.append_assoc]
      · rw [if_neg h2, if_neg h2]
        rcases hren : ren st (join path fn) (join path (unescape rt)) with ⟨st2, _ | e⟩
        · dsimp only
          exact ih st2 fl tm
        · dsimp only
          rw [ih st2 (fl ++ [Err.Rename (join path fn) (join path (unescape rt)) e]) tm,
            ih st2 ([] ++ [Err.Rename (join path fn) (join path (unescape rt)) e]) []]
          simp [List.append_assoc]

/-- Phase 2 never inspects the failure accumulator either: its result is
the empty-accumulator run with the incoming failures prepended. -/
theorem ereTempLoop_acc {σ ε : Type} (ren : σ → List Nat → List Nat → σ × Option ε)
    (join : List Nat → List Nat → List Nat) (path : List Nat) :
    ∀ (temps : List (List Nat × List Nat)) (st : σ) (failures : List (Err ε)),
      ereTempLoop ren join path temps st failures =
        ((ereTempLoop ren join path temps st []).1,
         failures ++ (ereTempLoop ren join path temps st []).2) := by
  intro temps
  induction temps with
  | nil => intro st fl; simp [ereTempLoop]
  | cons p rest ih =>
    intro st fl
    obtain ⟨tn, nn⟩ := p
    simp only [ereTempLoop]
    rcases hren : ren st (join path tn) (join path nn) with ⟨st2, _ | e⟩
    · dsimp only
      exact ih st2 fl
    · dsimp only
      rw [ih st2 (fl ++ [Err.Rename (join path tn) (join path nn) e]),
        ih st2 ([] ++ [Err.Rename (join path tn) (join path nn) e])]
      simp [List.append_assoc]

/-- C3: rename-phase failures are never fatal individually.  (i) Phase 1
processes every remaining pending pair independently of the failures and
deferred pairs already recorded, appending new records at the back;
(ii) phase 2 likewise processes every deferred pair independently of the
recorded failures; (iii) with matching lengths the executor runs phase 1
over all pairs, then phase 2 over all deferred pairs, and returns a
single `Group` error holding the phase-1 failures followed by the phase-2
failures, in the order recorded, when that list is nonempty — and
succeeds with no result value when it is empty. -/
theorem ere_best_effort_aggregation {σ ε : Type}
    (ren : σ → List Nat → List Nat → σ × Option ε)
    (join : List Nat → List Nat → List Nat)
    (tmpgen : List (List Nat) → Except ε (List Nat)) (path : List Nat) :
    (∀ (pairs : List (List Nat × List Nat)) (st : σ) (failures : List (Err ε))
        (temps : List (List Nat × List Nat)),
      ereLoop ren join tmpgen path pairs st failures temps =
        ((ereLoop ren join tmpgen path pairs st [] []).1,
         failures ++ (ereLoop ren join tmpgen path pairs st [] []).2.1,
         temps ++ (ereLoop ren join tmpgen path pairs st [] []).2.2)) ∧
    (∀ (temps : List (List Nat × List Nat)) (st : σ) (failures : List (Err ε)),
      ereTempLoop ren join path temps st failures =
        ((ereTempLoop ren join path temps st []).1,
         failures ++ (ereTempLoop ren join path temps st []).2)) ∧
    (∀ (file_names new_file_names : List (List Nat)) (st : σ),
      ereRename ren join tmpgen path file_names new_file_names st =
        if file_names.length ≠ new_file_names.length then
          (st, Except.error Err.CountMismatch)
        else
          let r1 := ereLoop ren join tmpgen path
            ((file_names.zip new_file_names).reverse) st [] []
          let r2 := ereTempLoop ren join path r1.2.2 r1.1 []
          let failures := r1.2.1 ++ r2.2
          (r2.1, if failures.isEmpty then Except.ok ()
                 else Except.error (Err.Group failures))) := by
  refine ⟨ereLoop_acc ren join tmpgen path, ereTempLoop_acc ren join path, ?_⟩
  intro fns rawTs st
  unfold ereRename
  by_cases hl : fns.length ≠ rawTs.length
  · rw [if_pos hl, if_pos hl]
  · rw [if_neg hl, if_neg hl]
    rcases h1 : ereLoop ren join tmpgen path ((fns.zip rawTs).reverse) st [] []
      with ⟨st1, fl1, tm1⟩
    dsimp only
    rw [ereTempLoop_acc ren join path tm1 st1 fl1]
    rcases h2 : ereTempLoop ren join path tm1 st1 [] with ⟨st2, fl2⟩
    dsimp only
    split <;> rfl

/-- C4: when the original and decoded target sequences differ in length,
the executor fails with `CountMismatch` and returns its state untouched —
for every rename implementation `ren`, so no rename call can have been
made. -/
theorem ereRename_count_mismatch {σ ε : Type}
    (ren : σ → List Nat → List Nat → σ × Option ε)
    (join : List Nat → List Nat → List Nat)
    (tmpgen : List (List Nat) → Except ε (List Nat)) (path : List Nat)
    (file_names new_file_names : List (List Nat)) (st : σ)
    (h : file_names.length ≠ new_file_names.length) :
    ereRename ren join tmpgen path file_names new_file_names st =
      (st, Except.error Err.CountMismatch) := by
  unfold ereRename
  rw [if_pos h]

/-- Witness for C4: one original entry, zero target lines; the run fails
with `CountMismatch` and the instrumented filesystem state — including
its empty rename-call log — is unchanged. -/
theorem ereRename_count_mismatch_witness :
    ([[97]] : List (List Nat)).length ≠ ([] : List (List Nat)).length ∧
    ereRename fsRename joinName (new_tmp_file_name (fun _ => 0)) []
        [[97]] [] ([(0, [97])], []) =
      (([(0, [97])], []), Except.error Err.CountMismatch) :=
  ⟨by decide,
   ereRename_count_mismatch fsRename joinName (new_tmp_file_name (fun _ => 0)) []
     [[97]] [] ([(0, [97])], []) (by decide)⟩

/-- C9: (i) for every pending pair whose target line decodes to its own
original name, the executor performs no rename operation for that pair:
when the pair comes up for processing — whatever other pairs remain
pending and whatever failures and deferred pairs have been recorded in
the run so far — the loop drops it and continues with the state (for
every rename implementation `ren`), the failure list and the deferred
pairs unchanged; (ii) in particular with `O = ["a"]`, `T = ["a"]` the
executor returns its state untouched — again for every rename
implementation, so no rename call occurs at all — and succeeds. -/
theorem ere_identity_noop {σ ε : Type}
    (ren : σ → List Nat → List Nat → σ × Option ε)
    (join : List Nat → List Nat → List Nat)
    (tmpgen : List (List Nat) → Except ε (List Nat)) (path : List Nat) :
    (∀ (file_name raw_target : List Nat) (rest : List (List Nat × List Nat))
        (st : σ) (failures : List (Err ε)) (temps : List (List Nat × List Nat)),
      unescape raw_target = file_name →
      ereLoop ren join tmpgen path ((file_name, raw_target) :: rest) st failures temps =
        ereLoop ren join tmpgen path rest st failures temps) ∧
    (∀ st : σ, ereRename ren join tmpgen path [[97]] [[97]] st = (st, Except.ok ())) := by
  have hstep : ∀ (file_name raw_target : List Nat) (rest : List (List Nat × List Nat))
      (st : σ) (failures : List (Err ε)) (temps : List (List Nat × List Nat)),
      unescape raw_target = file_name →
      ereLoop ren join tmpgen path ((file_name, raw_target) :: rest) st failures temps =
        ereLoop ren join tmpgen path rest st failures temps := by
    intro fn rt rest st fl tm h
    simp only [ereLoop, if_pos h.symm]
  refine ⟨hstep, ?_⟩
  intro st
  unfold ereRename
  rw [if_neg (by decide)]
  rw [show ((([[97]] : List (List Nat)).zip [[97]]).reverse) = [([97], [97])] from rfl]
  rw [hstep [97] [97] [] st [] [] (by decide)]
  rfl

/-- Witness for C9: the step conjunct at the identity pair
`([97], [97])` sitting in front of a non-identity pair `([98], [99])` of
a mixed instrumented run — the identity pair is dropped without any
rename — and the `O = ["a"]`, `T = ["a"]` run, which performs no rename
(the call log stays empty) and succeeds. -/
theorem ere_identity_noop_witness :
    unescape [97] = [97] ∧
    ereLoop fsRename joinName (new_tmp_file_name (fun _ => 0)) []
        [([97], [97]), ([98], [99])] ([(0, [97]), (1, [98])], []) [] [] =
      ereLoop fsRename joinName (new_tmp_file_name (fun _ => 0)) []
        [([98], [99])] ([(0, [97]), (1, [98])], []) [] [] ∧
    ereRename fsRename joinName (new_tmp_file_name (fun _ => 0)) []
        [[97]] [[97]] ([(0, [97])], []) =
      (([(0, [97])], []), Except.ok ()) :=
  ⟨by decide,
   (ere_identity_noop fsRename joinName (new_tmp_file_name (fun _ => 0)) []).1
     [97] [97] [([98], [99])] ([(0, [97]), (1, [98])], []) [] [] (by decide),
   (ere_identity_noop fsRename joinName (new_tmp_file_name (fun _ => 0)) []).2
     ([(0, [97])], [])⟩

/-- C2 as stated is false on the code: in the all-renames-succeed pairwise
swap `O = ["a","b"]`, `T = ["b","a"]` (bytes 97/98, instrumented
filesystem with a call log), the run does swap both entries, but only the
pair processed first (the one popped from the back, originally `"b"`) is
staged through a temporary; the entry originally named `"a"` is renamed
exactly once, directly to its final name `"b"`, which does not bear the
`".tmp"` marker — so it is not staged through a temporary name. -/
theorem swap_does_not_stage_both :
    ereRename fsRename joinName (new_tmp_file_name (fun _ => 0)) []
        [[97], [98]] [[98], [97]] ([(0, [97]), (1, [98])], []) =
      (([(0, [98]), (1, [97])],
        [([98], [46, 116, 109, 112, 48, 48, 48, 48, 48, 48]),
         ([97], [98]),
         ([46, 116, 109, 112, 48, 48, 48, 48, 48, 48], [97])]),
       Except.ok ()) ∧
    List.filter (fun p => p.1 == [97])
        [([98], [46, 116, 109, 112, 48, 48, 48, 48, 48, 48]),
         ([97], [98]),
         ([46, 116, 109, 112, 48, 48, 48, 48, 48, 48], [97])] =
      [([97], ([98] : List Nat))] ∧
    List.take 4 [98] ≠ tmpMarker :=
  ⟨rfl, by decide, by decide⟩

/-- C2 amended: in the pairwise swap both entries end up swapped (the
entry of identity 0, originally `"a"`, ends named `"b"`, and the entry of
identity 1, originally `"b"`, ends named `"a"`), every rename succeeds,
and the pair processed first — originally `"b"`, whose target `"a"`
collides with the still-pending original `"a"` — is staged through a
`".tmp"`-marked temporary before reaching its final name, while the other
entry is renamed directly. -/
theorem swap_renames_both_staging_first_processed :
    ereRename fsRename joinName (new_tmp_file_name (fun _ => 0)) []
        [[97], [98]] [[98], [97]] ([(0, [97]), (1, [98])], []) =
      (([(0, [98]), (1, [97])],
        [([98], [46, 116, 109, 112, 48, 48, 48, 48, 48, 48]),
         ([97], [98]),
         ([46, 116, 109, 112, 48, 48, 48, 48, 48, 48], [97])]),
       Except.ok ()) ∧
    List.take 4 [46, 116, 109, 112, 48, 48, 48, 48, 48, 48] = tmpMarker :=
  ⟨rfl, by decide⟩

end Ere
